import Mathlib

/-!
Formal model of the ICRC humanitarian ledger core: the hash-chained block
store (contracts/ledger.js) and the prediction-market engine with its
position ledger (contracts/market.js, contracts/shares.js).

Modelling conventions:
* SHA-256 is modelled as an injective constructor `Digest.digest` over the
  exact tuple the code feeds to the hash (index, timestamp, the JSON string
  of the payload, previous digest); `Digest.sentinel` is the all-zero
  genesis sentinel string.  This is the standard collision-free model of a
  cryptographic hash.
* ISO timestamps are modelled as natural numbers (abstract instants); the
  payload is modelled as its canonical JSON string.
* The ledger-data directory (one `block_<index>.json` file per block) is
  modelled as a `List Block` in file-creation order; writing a file whose
  name already exists overwrites it in place, otherwise the file is new.
* JavaScript numbers are modelled as exact rationals; `Math.round x` is
  `⌊x + 1/2⌋` (its semantics on finite doubles).  Division by zero differs
  (JS yields Infinity, ℚ yields 0); no proved statement depends on the
  divisor-zero case.
* JS objects used as string-keyed dictionaries are modelled as association
  lists; `delete obj[k]` is a filter, property update is a keyed map.
-/

set_option autoImplicit false

namespace ICRC

/-- Collision-free model of the hex digests appearing in `ledger.js`:
`sentinel` is the 64-zero genesis `previousHash`, `digest i t d p` is the
SHA-256 of `index + timestamp + JSON.stringify(data) + previousHash`
computed by `Blockchain.calculateHash`. -/
inductive Digest where
  | sentinel : Digest
  | digest (index : Nat) (timestamp : Nat) (data : String) (prev : Digest) : Digest
deriving DecidableEq, Repr

/-- A block as persisted in `block_<index>.json`: `{index, timestamp, data,
previousHash, hash}` (the optional `status` tag is attached only by the
display path `updateBlockStatus`, never persisted by the operations modelled
here). -/
structure Block where
  index : Nat
  timestamp : Nat
  data : String
  previousHash : Digest
  hash : Digest
deriving DecidableEq, Repr

/-- The ledger-data directory: the stored block files in creation order. -/
abbrev Store := List Block

/-- Model of `fs.writeFileSync` on `block_<b.index>.json`: overwrite the
file of the same index if it exists, otherwise create a new one. -/
def storeWrite (s : Store) (b : Block) : Store :=
  if s.any (fun c => c.index == b.index) then
    s.map (fun c => if c.index == b.index then b else c)
  else
    s ++ [b]

/-- `Blockchain.getLatestBlock`: scan the directory keeping the first file
whose index strictly exceeds the running maximum (`index > maxIndex`). -/
def getLatestBlock (s : Store) : Option Block :=
  s.foldl
    (fun acc b =>
      match acc with
      | none => some b
      | some c => if b.index > c.index then some b else some c)
    none

/-- Insertion of a block into an index-sorted list, ascending. -/
def insertSorted (b : Block) : List Block → List Block
  | [] => [b]
  | c :: cs => if b.index ≤ c.index then b :: c :: cs else c :: insertSorted b cs

/-- Sorting by index, ascending (the `(a, b) => indexA - indexB` sort). -/
def sortByIndex (l : List Block) : List Block :=
  l.foldr insertSorted []

/-- `Blockchain.getFullChain`: all block files sorted by their index. -/
def getFullChain (s : Store) : List Block :=
  sortByIndex s

/-- `Blockchain.clearLedger`: delete every block file. -/
def clearLedger (_ : Store) : Store := []

/-- `Blockchain.addBlock`.  The code reads the clock twice: once for the
stored `timestamp` field (line 76) and once, separately, inside the
`calculateHash` call (line 79); `tStored` and `tHashed` are the values
returned by those two `new Date().toISOString()` calls.  Peer broadcast
does not touch the local store and is not modelled. -/
def addBlock (s : Store) (d : String) (tStored tHashed : Nat) : Store :=
  let latestBlock := getLatestBlock s
  let index : Nat := match latestBlock with | some b => b.index + 1 | none => 0
  let previousHash : Digest := match latestBlock with | some b => b.hash | none => Digest.sentinel
  let newBlock : Block :=
    { index := index, timestamp := tStored, data := d, previousHash := previousHash,
      hash := Digest.digest index tHashed d previousHash }
  storeWrite s newBlock

/-- The per-block hash recomputation shared by `validateChain`,
`detectTampering` and `saveReceivedBlock`. -/
def expectedHash (b : Block) : Digest :=
  Digest.digest b.index b.timestamp b.data b.previousHash

/-- `Blockchain.validateChain`, with the loop's `chain[i-1]` carried as an
explicit previous-element accumulator. -/
def validFrom : Option Block → List Block → Bool
  | _, [] => true
  | prevb, b :: rest =>
    if b.hash ≠ expectedHash b then false
    else
      match prevb with
      | some p => if b.previousHash ≠ p.hash then false else validFrom (some b) rest
      | none => validFrom (some b) rest

/-- `Blockchain.validateChain` on a full chain. -/
def validateChain (chain : List Block) : Bool :=
  validFrom none chain

/-- One entry of the tamper report (`{index, reason, status: 'tampered'}`;
the constant `status` tag is omitted). -/
structure TamperReport where
  index : Nat
  reason : String
deriving DecidableEq, Repr

/-- `Blockchain.detectTampering` loop body, previous element carried as an
accumulator.  The third in-loop check (comparing `data.kitID` across
blocks) pushes nothing in the source and is omitted. -/
def detectFrom : Option Block → List Block → List TamperReport
  | _, [] => []
  | prevb, b :: rest =>
    if b.hash ≠ expectedHash b then
      ⟨b.index, "Invalid block hash"⟩ :: detectFrom (some b) rest
    else
      match prevb with
      | some p =>
        if b.previousHash ≠ p.hash then
          ⟨b.index, "Invalid previous hash link"⟩ :: detectFrom (some b) rest
        else detectFrom (some b) rest
      | none => detectFrom (some b) rest

/-- `Blockchain.detectTampering` on a full chain. -/
def detectTampering (chain : List Block) : List TamperReport :=
  detectFrom none chain

/-- `Blockchain.replaceChain`: rejected unless strictly longer than the
current full chain and internally valid; on acceptance the ledger is
cleared and every candidate block is written under its own index. -/
def replaceChain (s : Store) (newChain : List Block) : Store × Bool :=
  if newChain.length ≤ (getFullChain s).length then (s, false)
  else if validateChain newChain = false then (s, false)
  else (newChain.foldl storeWrite (clearLedger s), true)

/-- `Blockchain.saveReceivedBlock`: reject on bad own hash; accept a
duplicate index idempotently only when the stored hash is identical;
reject a stale index; otherwise write the block. -/
def saveReceivedBlock (s : Store) (b : Block) : Store × Bool :=
  if b.hash ≠ expectedHash b then (s, false)
  else
    match s.find? (fun c => c.index == b.index) with
    | some existingBlock =>
      if existingBlock.hash = b.hash then (s, true) else (s, false)
    | none =>
      match getLatestBlock s with
      | some latestBlock =>
        if b.index ≤ latestBlock.index then (s, false)
        else (storeWrite s b, true)
      | none => (storeWrite s b, true)

/-- `Blockchain.syncWithPeer`, with the chain fetched from the peer passed
as input: overwrite the local ledger whenever the neighbor chain is valid
and at least as long as the local full chain. -/
def syncWithPeer (s : Store) (neighborChain : List Block) : Store × Bool :=
  if validateChain neighborChain = true ∧ (getFullChain s).length ≤ neighborChain.length then
    (neighborChain.foldl storeWrite (clearLedger s), true)
  else (s, false)

/-- Binary market outcome. -/
inductive Outcome where
  | YES : Outcome
  | NO : Outcome
deriving DecidableEq, Repr

/-- The opposite outcome (`outcome === 'YES' ? 'NO' : 'YES'`). -/
def Outcome.other : Outcome → Outcome
  | .YES => .NO
  | .NO => .YES

/-- Market status; the code declares OPEN, CLOSED, RESOLVED and only ever
sets OPEN and RESOLVED. -/
inductive MarketStatus where
  | OPEN : MarketStatus
  | CLOSED : MarketStatus
  | RESOLVED : MarketStatus
deriving DecidableEq, Repr

/-- An association list keyed by strings: the model of a JS object used as
a dictionary. -/
abbrev Dict (A : Type) := List (String × A)

/-- Property read `obj[k]` (None models `undefined`). -/
def dictGet {A : Type} (l : Dict A) (k : String) : Option A :=
  (l.find? (fun p => p.1 == k)).map (fun p => p.2)

/-- In-place update of an existing property `obj[k] = f obj[k]`. -/
def dictAdjust {A : Type} (l : Dict A) (k : String) (f : A → A) : Dict A :=
  l.map (fun p => if p.1 == k then (p.1, f p.2) else p)

/-- A YES/NO pair of share counts (`{ YES: q, NO: q }`). -/
abbrev Pos := ℚ × ℚ

/-- Read one side of a YES/NO pair. -/
def posGet (p : Pos) (o : Outcome) : ℚ :=
  match o with
  | .YES => p.1
  | .NO => p.2

/-- Write one side of a YES/NO pair. -/
def posSet (p : Pos) (o : Outcome) (v : ℚ) : Pos :=
  match o with
  | .YES => (v, p.2)
  | .NO => (p.1, v)

/-- `Math.round x` on a finite double: the integer `⌊x + 1/2⌋`. -/
def jsRound (q : ℚ) : ℤ := ⌊q + 1/2⌋

/-- Two-decimal rounding `Math.round(x * 100) / 100` used by
`calculatePrice`. -/
def rnd2 (q : ℚ) : ℚ := (jsRound (q * 100) : ℚ) / 100

/-- A `PredictionMarket` instance (market.js).  The inert descriptive
fields `question`, `kitID`, `deadline`, `createdBy`, `createdAt` are
carried as opaque strings; `outcomes` is split into its two components. -/
structure Market where
  marketID : String
  question : String
  kitID : String
  deadline : String
  createdBy : String
  createdAt : String
  outcomesYES : ℚ
  outcomesNO : ℚ
  positions : Dict Pos
  status : MarketStatus
  winningOutcome : Option Outcome
  totalVolume : ℚ
deriving DecidableEq, Repr

/-- The `PredictionMarket` constructor: pools both start at 1000, no
positions, OPEN, no winner, zero volume. -/
def newMarket (marketID question kitID deadline createdBy createdAt : String) : Market :=
  { marketID := marketID, question := question, kitID := kitID, deadline := deadline,
    createdBy := createdBy, createdAt := createdAt,
    outcomesYES := 1000, outcomesNO := 1000,
    positions := [], status := .OPEN, winningOutcome := none, totalVolume := 0 }

/-- Pool read `this.outcomes[outcome]`. -/
def Market.pool (m : Market) (o : Outcome) : ℚ :=
  match o with
  | .YES => m.outcomesYES
  | .NO => m.outcomesNO

/-- Pool write `this.outcomes[outcome] = v`. -/
def Market.setPool (m : Market) (o : Outcome) (v : ℚ) : Market :=
  match o with
  | .YES => { m with outcomesYES := v }
  | .NO => { m with outcomesNO := v }

/-- `PredictionMarket.calculatePrice`: `amount * (otherPool / currentPool)`
rounded to two decimals, on the current (pre-trade) pool snapshot. -/
def calculatePrice (m : Market) (o : Outcome) (amount : ℚ) : ℚ :=
  let currentPool := m.pool o
  let otherPool := m.pool o.other
  rnd2 (amount * (otherPool / currentPool))

/-- The transaction object returned by `buyShares` (ISO timestamp field
omitted; it is never read back by the code). -/
structure BuyTx where
  marketID : String
  userId : String
  outcome : Outcome
  shares : ℚ
  cost : ℚ
deriving DecidableEq, Repr

/-- The transaction object returned by `sellShares`.  Note it carries
`payout` and no `cost` property. -/
structure SellTx where
  marketID : String
  userId : String
  outcome : Outcome
  shares : ℚ
  payout : ℚ
deriving DecidableEq, Repr

/-- `PredictionMarket.buyShares`: rejects only a non-OPEN market, then
prices the trade, decrements the outcome pool, adds the cost to
`totalVolume` and credits the user position (creating `{YES:0, NO:0}`
first if absent). -/
def Market.buyShares (m : Market) (userId : String) (o : Outcome) (amount : ℚ) :
    Except String (BuyTx × Market) :=
  if m.status ≠ .OPEN then .error "Market is not open for trading"
  else
    let cost := calculatePrice m o amount
    let ps0 := if (dictGet m.positions userId).isNone then m.positions ++ [(userId, ((0 : ℚ), (0 : ℚ)))] else m.positions
    let ps1 := dictAdjust ps0 userId (fun p => posSet p o (posGet p o + amount))
    let m1 := m.setPool o (m.pool o - amount)
    let m2 := { m1 with totalVolume := m1.totalVolume + cost, positions := ps1 }
    .ok ({ marketID := m.marketID, userId := userId, outcome := o, shares := amount, cost := cost }, m2)

/-- `PredictionMarket.sellShares`: rejects a non-OPEN market, then rejects
when `!positions[userId] || positions[userId][outcome] < amount`;
otherwise prices the payout, increments the pool, adds the payout to
`totalVolume` and debits the user position. -/
def Market.sellShares (m : Market) (userId : String) (o : Outcome) (amount : ℚ) :
    Except String (SellTx × Market) :=
  if m.status ≠ .OPEN then .error "Market is not open for trading"
  else
    match dictGet m.positions userId with
    | none => .error "Insufficient shares"
    | some p =>
      if posGet p o < amount then .error "Insufficient shares"
      else
        let payout := calculatePrice m o amount
        let ps1 := dictAdjust m.positions userId (fun q => posSet q o (posGet q o - amount))
        let m1 := m.setPool o (m.pool o + amount)
        let m2 := { m1 with totalVolume := m1.totalVolume + payout, positions := ps1 }
        .ok ({ marketID := m.marketID, userId := userId, outcome := o, shares := amount, payout := payout }, m2)

/-- `PredictionMarket.resolve`: only from OPEN; records the winning
outcome and moves to RESOLVED. -/
def Market.resolve (m : Market) (actualOutcome : Outcome) : Except String Market :=
  if m.status ≠ .OPEN then .error "Market already closed"
  else .ok { m with winningOutcome := some actualOutcome, status := .RESOLVED }

/-- `PredictionMarket.getProbabilities`: YES probability is
`Math.round(pool.NO / (pool.YES + pool.NO) * 100)`, NO is its complement
to 100. -/
def Market.getProbabilities (m : Market) : ℤ × ℤ :=
  let totalPool := m.outcomesYES + m.outcomesNO
  let yesProb := jsRound (m.outcomesNO / totalPool * 100)
  (yesProb, 100 - yesProb)

/-- A `ShareManager` balance entry `{credits, holdings}`; holdings are
keyed by market id. -/
structure UserBalance where
  credits : ℚ
  holdings : Dict Pos
deriving DecidableEq, Repr

/-- A `ShareManager` stats entry.  `profit` is an `Option ℚ` because the
sell path computes `payout - transaction.cost` where the sell transaction
carries no `cost` property, so in JS the update yields NaN (modelled as
`none`). -/
structure UserStats where
  correctPredictions : Nat
  totalPredictions : Nat
  profit : Option ℚ
  totalTrades : Nat
deriving DecidableEq, Repr

/-- The all-zero stats a fresh user starts with. -/
def freshStats : UserStats :=
  { correctPredictions := 0, totalPredictions := 0, profit := some 0, totalTrades := 0 }

/-- The `ShareManager` state: `userBalances` and `userStats`. -/
structure ShareManager where
  userBalances : Dict UserBalance
  userStats : Dict UserStats
deriving DecidableEq, Repr

/-- Balance lookup `this.userBalances[userId]`. -/
def lookupBal (sm : ShareManager) (u : String) : Option UserBalance :=
  dictGet sm.userBalances u

/-- Stats lookup `this.userStats[userId]`. -/
def lookupStats (sm : ShareManager) (u : String) : Option UserStats :=
  dictGet sm.userStats u

/-- Keyed update of a balance entry (the entry is always present at the
call sites modelled here, by the `initializeUser` invariant). -/
def updateBal (sm : ShareManager) (u : String) (f : UserBalance → UserBalance) : ShareManager :=
  { sm with userBalances := dictAdjust sm.userBalances u f }

/-- Keyed update of a stats entry. -/
def updateStats (sm : ShareManager) (u : String) (f : UserStats → UserStats) : ShareManager :=
  { sm with userStats := dictAdjust sm.userStats u f }

/-- `ShareManager.initializeUser`: no-op when a balance entry exists,
otherwise creates the balance entry (given credits, empty holdings) and
the zeroed stats entry. -/
def ShareManager.initializeUser (sm : ShareManager) (userId : String) (initialCredits : ℚ) : ShareManager :=
  if (lookupBal sm userId).isSome then sm
  else
    { userBalances := sm.userBalances ++ [(userId, { credits := initialCredits, holdings := [] })],
      userStats := sm.userStats ++ [(userId, freshStats)] }

/-- The record returned by `ShareManager.getBalance`. -/
structure BalanceView where
  credits : ℚ
  holdings : Dict Pos
  stats : Option UserStats
deriving DecidableEq, Repr

/-- `ShareManager.getBalance`: implicitly initializes an unknown user with
the default 10000 credits, then reads credits, holdings and stats.  The
mutated manager is returned alongside the view. -/
def ShareManager.getBalance (sm : ShareManager) (userId : String) : ShareManager × BalanceView :=
  let sm1 := if (lookupBal sm userId).isNone then sm.initializeUser userId 10000 else sm
  (sm1,
   { credits := ((lookupBal sm1 userId).map (fun b => b.credits)).getD 0,
     holdings := ((lookupBal sm1 userId).map (fun b => b.holdings)).getD [],
     stats := lookupStats sm1 userId })

/-- Holdings update on a buy: create `{YES:0, NO:0}` for the market if
absent, then add `amount` to the bought side. -/
def holdingsAdd (hs : Dict Pos) (mid : String) (o : Outcome) (amount : ℚ) : Dict Pos :=
  let hs0 := if (dictGet hs mid).isNone then hs ++ [(mid, ((0 : ℚ), (0 : ℚ)))] else hs
  dictAdjust hs0 mid (fun p => posSet p o (posGet p o + amount))

/-- `ShareManager.buyShares`: initializes the user if unknown, delegates
to the market (whose rejection propagates, leaving the possibly freshly
initialized ledger otherwise untouched), then debits the cost — with no
check that the credits cover it — updates holdings and bumps
`totalTrades`. -/
def ShareManager.buyShares (sm0 : ShareManager) (m : Market) (userId : String) (o : Outcome) (amount : ℚ) :
    ShareManager × Market × Except String BuyTx :=
  let sm := if (lookupBal sm0 userId).isNone then sm0.initializeUser userId 10000 else sm0
  match m.buyShares userId o amount with
  | .error e => (sm, m, .error e)
  | .ok (tx, m1) =>
    let sm1 := updateBal sm userId (fun ub =>
      { ub with credits := ub.credits - tx.cost,
                holdings := holdingsAdd ub.holdings m.marketID o amount })
    let sm2 := updateStats sm1 userId (fun st => { st with totalTrades := st.totalTrades + 1 })
    (sm2, m1, .ok tx)

/-- `ShareManager.sellShares`: throws for an unknown user, delegates to
the market (rejections propagate before any ledger mutation), then credits
the payout, debits the holdings — a missing holdings entry raises a
TypeError in JS after the credits were already added, modelled by the
error branch below — bumps `totalTrades` and sets `profit` to NaN (the
sell transaction has no `cost` property). -/
def ShareManager.sellShares (sm : ShareManager) (m : Market) (userId : String) (o : Outcome) (amount : ℚ) :
    ShareManager × Market × Except String SellTx :=
  if (lookupBal sm userId).isNone then (sm, m, .error "User account not found")
  else
    match m.sellShares userId o amount with
    | .error e => (sm, m, .error e)
    | .ok (tx, m1) =>
      let sm1 := updateBal sm userId (fun ub => { ub with credits := ub.credits + tx.payout })
      match (lookupBal sm1 userId).bind (fun ub => dictGet ub.holdings m.marketID) with
      | none => (sm1, m1, .error "TypeError: holdings entry missing")
      | some _ =>
        let sm2 := updateBal sm1 userId (fun ub =>
          { ub with holdings := dictAdjust ub.holdings m.marketID (fun p => posSet p o (posGet p o - amount)) })
        let sm3 := updateStats sm2 userId (fun st =>
          { st with totalTrades := st.totalTrades + 1, profit := none })
        (sm3, m1, .ok tx)

/-- `ShareManager.resolvePosition`: no-op without a balance entry or a
holdings entry for the market; otherwise reads winning and losing share
counts (`holdings[market.winningOutcome]` is `undefined` when the market
is unresolved, and `undefined > 0` is false — modelled as 0), bumps
`correctPredictions` when winning shares were held, bumps
`totalPredictions` when any shares were held, and deletes the holdings
entry. -/
def ShareManager.resolvePosition (sm : ShareManager) (userId : String) (m : Market) : ShareManager :=
  match lookupBal sm userId with
  | none => sm
  | some ub =>
    match dictGet ub.holdings m.marketID with
    | none => sm
    | some h =>
      let winningShares : ℚ :=
        match m.winningOutcome with
        | some o => posGet h o
        | none => 0
      let losingShares : ℚ :=
        match m.winningOutcome with
        | some .YES => posGet h .NO
        | _ => posGet h .YES
      let sm1 := updateStats sm userId (fun st =>
        let st1 := if winningShares > 0 then { st with correctPredictions := st.correctPredictions + 1 } else st
        if winningShares > 0 ∨ losingShares > 0 then { st1 with totalPredictions := st1.totalPredictions + 1 } else st1)
      updateBal sm1 userId (fun b => { b with holdings := b.holdings.filter (fun p => p.1 != m.marketID) })

/-! ### Generic helper lemmas -/

lemma find?_none_of_dictGet_none {A : Type} {l : Dict A} {k : String}
    (h : dictGet l k = none) : l.find? (fun p => p.1 == k) = none := by
  unfold dictGet at h
  cases hf : l.find? (fun p => p.1 == k) with
  | none => rfl
  | some v => rw [hf] at h; simp at h

lemma dictGet_append_of_none {A : Type} {l1 : Dict A} (l2 : Dict A) {k : String}
    (h : dictGet l1 k = none) : dictGet (l1 ++ l2) k = dictGet l2 k := by
  unfold dictGet
  rw [List.find?_append, find?_none_of_dictGet_none h]
  rfl

lemma dictGet_cons_self {A : Type} (k : String) (v : A) (l : Dict A) :
    dictGet ((k, v) :: l) k = some v := by
  simp [dictGet]

lemma dictGet_adjust_self {A : Type} (l : Dict A) (k : String) (f : A → A) :
    dictGet (dictAdjust l k f) k = (dictGet l k).map f := by
  induction l with
  | nil => rfl
  | cons p rest ih =>
    by_cases h : p.1 = k
    · simp [dictAdjust, dictGet, h]
    · simp only [dictAdjust, dictGet, List.map_cons] at *
      rw [if_neg (by simpa using h)]
      rw [List.find?_cons_of_neg _ (by simpa using h), List.find?_cons_of_neg _ (by simpa using h)]
      exact ih

lemma dictGet_filter_self {A : Type} (l : Dict A) (k : String) :
    dictGet (l.filter (fun p => p.1 != k)) k = none := by
  induction l with
  | nil => rfl
  | cons p rest ih =>
    by_cases h : p.1 = k
    · simpa [List.filter_cons, h] using ih
    · simp only [List.filter_cons]
      rw [if_pos (by simpa using h)]
      unfold dictGet at *
      rw [List.find?_cons_of_neg _ (by simpa using h)]
      exact ih

lemma storeWrite_of_fresh {s : Store} {b : Block}
    (h : ∀ c ∈ s, c.index ≠ b.index) : storeWrite s b = s ++ [b] := by
  unfold storeWrite
  rw [if_neg]
  intro hany
  obtain ⟨c, hc, hci⟩ := List.any_eq_true.mp hany
  exact h c hc (by simpa using hci)

lemma foldl_storeWrite_eq_append :
    ∀ (c : List Block) (acc : Store),
    (∀ b ∈ c, ∀ x ∈ acc, x.index ≠ b.index) → (c.map Block.index).Nodup →
    c.foldl storeWrite acc = acc ++ c := by
  intro c
  induction c with
  | nil => intro acc _ _; simp
  | cons b rest ih =>
    intro acc hdisj hnodup
    have hw : storeWrite acc b = acc ++ [b] :=
      storeWrite_of_fresh (fun x hx => hdisj b (List.mem_cons_self b rest) x hx)
    have hnd : (∀ x ∈ rest, ¬ x.index = b.index) ∧ (rest.map Block.index).Nodup := by
      simpa using hnodup
    rw [List.foldl_cons, hw, ih (acc ++ [b]) ?_ hnd.2]
    · simp
    · intro b2 hb2 x hx
      rcases List.mem_append.mp hx with hx | hx
      · exact hdisj b2 (List.mem_cons_of_mem _ hb2) x hx
      · have hxb : x = b := by simpa using hx
        subst hxb
        intro heq
        exact hnd.1 b2 hb2 heq.symm

lemma length_insertSorted (b : Block) (l : List Block) :
    (insertSorted b l).length = l.length + 1 := by
  induction l with
  | nil => rfl
  | cons c cs ih =>
    unfold insertSorted
    split
    · rfl
    · simpa using ih

lemma length_sortByIndex (l : List Block) : (sortByIndex l).length = l.length := by
  induction l with
  | nil => rfl
  | cons b rest ih =>
    show (insertSorted b (sortByIndex rest)).length = rest.length + 1
    rw [length_insertSorted, ih]

/-! ### Claim theorems: chain engine -/

/-- C1 (code bug).  The chain-linkage claim states that every chain built
by `addBlock` passes `verifyChain`, the stored hash being the digest of
the stored timestamp.  `addBlock` however reads the clock twice — once for
the stored `timestamp`, once inside `calculateHash` — so whenever the ISO
clock reading advances between the two calls the stored block hashes a
timestamp different from the one it stores, and validation fails.  First
conjunct: when both readings agree (same millisecond) appended chains do
validate; second conjunct: an append whose two clock readings differ
produces a chain `verifyChain` rejects. -/
theorem addBlock_clock_tick_breaks_validation :
    validateChain (getFullChain (addBlock (addBlock [] "a" 0 0) "b" 1 1)) = true ∧
    validateChain (getFullChain (addBlock [] "c" 0 1)) = false := by
  constructor
  · rfl
  · rfl

/-- C5.  `saveReceivedBlock` for a block with a valid own hash: (1) when
no block occupies the index and the index exceeds the local latest, the
block is accepted, a byte-identical re-receipt is accepted again as a
no-op, and exactly one block is stored at that index; (2) a block whose
index is occupied by a block with a different hash is rejected with the
store untouched; (3) a block whose index does not exceed the local latest
(and occupies no existing slot) is rejected with the store untouched. -/
theorem saveReceivedBlock_idempotent_and_rejections :
    ∀ (s : Store) (b : Block), b.hash = expectedHash b →
    (((s.find? (fun c => c.index == b.index) = none ∧
       (∀ latest, getLatestBlock s = some latest → latest.index < b.index)) →
      (saveReceivedBlock s b).2 = true ∧
      (saveReceivedBlock (saveReceivedBlock s b).1 b).2 = true ∧
      (saveReceivedBlock (saveReceivedBlock s b).1 b).1 = (saveReceivedBlock s b).1 ∧
      (saveReceivedBlock s b).1.countP (fun c => c.index == b.index) = 1) ∧
     (∀ ex, s.find? (fun c => c.index == b.index) = some ex → ex.hash ≠ b.hash →
      saveReceivedBlock s b = (s, false)) ∧
     (s.find? (fun c => c.index == b.index) = none →
      ∀ latest, getLatestBlock s = some latest → b.index ≤ latest.index →
      saveReceivedBlock s b = (s, false))) := by
  intro s b hhash
  have hok : ¬ b.hash ≠ expectedHash b := by simpa using hhash
  refine ⟨?_, ?_, ?_⟩
  · rintro ⟨hfind, hlatest⟩
    have hfresh : ∀ c ∈ s, c.index ≠ b.index := by
      intro c hc
      have := List.find?_eq_none.mp hfind c hc
      simpa using this
    have hsave1 : saveReceivedBlock s b = (s ++ [b], true) := by
      unfold saveReceivedBlock
      rw [if_neg hok, hfind]
      cases hlb : getLatestBlock s with
      | none =>
        dsimp only
        rw [storeWrite_of_fresh hfresh]
      | some latest =>
        dsimp only
        rw [if_neg (Nat.not_le.mpr (hlatest latest hlb)), storeWrite_of_fresh hfresh]
    have hfind2 : (s ++ [b]).find? (fun c => c.index == b.index) = some b := by
      rw [List.find?_append, hfind]
      simp
    have hsave2 : saveReceivedBlock (s ++ [b]) b = (s ++ [b], true) := by
      unfold saveReceivedBlock
      rw [if_neg hok, hfind2]
      dsimp only
      rw [if_pos rfl]
    refine ⟨by rw [hsave1], by rw [hsave1, hsave2], by rw [hsave1, hsave2], ?_⟩
    rw [hsave1]
    rw [List.countP_append]
    have h0 : s.countP (fun c => c.index == b.index) = 0 :=
      List.countP_eq_zero.mpr (fun c hc => List.find?_eq_none.mp hfind c hc)
    rw [h0]
    simp
  · intro ex hfind hne
    unfold saveReceivedBlock
    rw [if_neg hok, hfind]
    dsimp only
    rw [if_neg hne]
  · intro hfind latest hlb hle
    unfold saveReceivedBlock
    rw [if_neg hok, hfind, hlb]
    dsimp only
    rw [if_pos hle]

/-- Witness for C5 at a concrete input: a genesis-style block received
twice into an empty store is accepted both times. -/
theorem saveReceivedBlock_idempotent_witness :
    (saveReceivedBlock [] ⟨0, 5, "kit", Digest.sentinel, Digest.digest 0 5 "kit" Digest.sentinel⟩).2 = true ∧
    (saveReceivedBlock
      (saveReceivedBlock [] ⟨0, 5, "kit", Digest.sentinel, Digest.digest 0 5 "kit" Digest.sentinel⟩).1
      ⟨0, 5, "kit", Digest.sentinel, Digest.digest 0 5 "kit" Digest.sentinel⟩).2 = true := by
  have h := (saveReceivedBlock_idempotent_and_rejections []
    ⟨0, 5, "kit", Digest.sentinel, Digest.digest 0 5 "kit" Digest.sentinel⟩ rfl).1
    ⟨rfl, by intro latest hl; simp [getLatestBlock] at hl⟩
  exact ⟨h.1, h.2.1⟩

/-- C3 counterexample.  The claim says both `replaceChain` and the peer
sync accept a remote chain iff it is STRICTLY longer than the local chain;
but `syncWithPeer` uses `length >= local length`, so a valid chain of
equal length is accepted and overwrites the local store. -/
theorem syncWithPeer_accepts_equal_length :
    (syncWithPeer [⟨0, 0, "a", Digest.sentinel, Digest.digest 0 0 "a" Digest.sentinel⟩]
        [⟨0, 0, "b", Digest.sentinel, Digest.digest 0 0 "b" Digest.sentinel⟩]).2 = true ∧
    (syncWithPeer [⟨0, 0, "a", Digest.sentinel, Digest.digest 0 0 "a" Digest.sentinel⟩]
        [⟨0, 0, "b", Digest.sentinel, Digest.digest 0 0 "b" Digest.sentinel⟩]).1 =
      [⟨0, 0, "b", Digest.sentinel, Digest.digest 0 0 "b" Digest.sentinel⟩] ∧
    ([⟨0, 0, "b", Digest.sentinel, Digest.digest 0 0 "b" Digest.sentinel⟩] : List Block).length =
      ([⟨0, 0, "a", Digest.sentinel, Digest.digest 0 0 "a" Digest.sentinel⟩] : List Block).length := by
  refine ⟨rfl, rfl, rfl⟩

/-- C3 as amended: `replaceChain` accepts iff the candidate is strictly
longer and internally valid, while `syncWithPeer` accepts iff the fetched
chain is internally valid and at least as long (equality included); on
acceptance the store is cleared and rewritten to exactly the candidate
(for candidates with pairwise distinct block indices, one file per index),
and on rejection the store is untouched. -/
theorem replaceChain_and_syncWithPeer_semantics :
    ∀ (s : Store) (c : List Block),
    ((replaceChain s c).2 = true ↔ (s.length < c.length ∧ validateChain c = true)) ∧
    ((replaceChain s c).2 = false → (replaceChain s c).1 = s) ∧
    (s.length < c.length → validateChain c = true → (c.map Block.index).Nodup →
      (replaceChain s c).1 = c) ∧
    ((syncWithPeer s c).2 = true ↔ (validateChain c = true ∧ s.length ≤ c.length)) ∧
    ((syncWithPeer s c).2 = false → (syncWithPeer s c).1 = s) ∧
    (validateChain c = true → s.length ≤ c.length → (c.map Block.index).Nodup →
      (syncWithPeer s c).1 = c) := by
  intro s c
  have hlen : (getFullChain s).length = s.length := length_sortByIndex s
  have hfold : (c.map Block.index).Nodup → c.foldl storeWrite (clearLedger s) = c := by
    intro hnd
    have := foldl_storeWrite_eq_append c [] (by intro b _ x hx; cases hx) hnd
    simpa [clearLedger] using this
  refine ⟨?_, ?_, ?_, ?_, ?_, ?_⟩
  · unfold replaceChain
    rw [hlen]
    by_cases h1 : c.length ≤ s.length
    · simp [h1, Nat.not_lt.mpr h1]
    · by_cases h2 : validateChain c = false
      · simp [h1, h2]
      · simp [h1, h2, Nat.lt_of_not_le h1]
  · unfold replaceChain
    by_cases h1 : c.length ≤ (getFullChain s).length
    · simp [h1]
    · by_cases h2 : validateChain c = false
      · simp [h1, h2]
      · simp [h1, h2]
  · intro hlt hval hnd
    unfold replaceChain
    rw [if_neg (by rw [hlen]; exact Nat.not_le.mpr hlt), if_neg (by rw [hval]; simp)]
    exact hfold hnd
  · unfold syncWithPeer
    rw [hlen]
    by_cases h : validateChain c = true ∧ s.length ≤ c.length
    · simp [h]
    · rw [if_neg h]
      constructor
      · intro hff
        exact absurd hff (by simp)
      · intro hc
        exact absurd hc h
  · unfold syncWithPeer
    by_cases h : validateChain c = true ∧ (getFullChain s).length ≤ c.length
    · simp [h]
    · simp [if_neg h]
  · intro hval hle hnd
    unfold syncWithPeer
    rw [if_pos ⟨hval, by rw [hlen]; exact hle⟩]
    exact hfold hnd

/-- Witness for C3's amended theorem: a valid 1-block candidate replaces
an empty local store via `replaceChain`. -/
theorem replaceChain_semantics_witness :
    (([] : Store).length < ([⟨0, 0, "a", Digest.sentinel, Digest.digest 0 0 "a" Digest.sentinel⟩] : List Block).length) ∧
    (replaceChain [] [⟨0, 0, "a", Digest.sentinel, Digest.digest 0 0 "a" Digest.sentinel⟩]).1 =
      [⟨0, 0, "a", Digest.sentinel, Digest.digest 0 0 "a" Digest.sentinel⟩] := by
  refine ⟨by decide, ?_⟩
  exact (replaceChain_and_syncWithPeer_semantics []
    [⟨0, 0, "a", Digest.sentinel, Digest.digest 0 0 "a" Digest.sentinel⟩]).2.2.1
    (by decide) (by rfl) (by decide)

/-- One step of the tamper scan, applied to a block and its predecessor
(if any): report a wrong own hash, otherwise a wrong predecessor link,
otherwise nothing. -/
def scanPair (b : Block) (prevb : Option Block) : Option TamperReport :=
  if b.hash ≠ expectedHash b then some ⟨b.index, "Invalid block hash"⟩
  else
    match prevb with
    | some p =>
      if b.previousHash ≠ p.hash then some ⟨b.index, "Invalid previous hash link"⟩ else none
    | none => none

/-- Transcription of the specification's description of the tamper audit:
pair every block with its predecessor and report, without short-circuit,
every block whose own hash is wrong or whose link to its predecessor is
wrong. -/
def tamperReportSpec (chain : List Block) : List TamperReport :=
  (chain.zip (none :: chain.map some)).filterMap (fun bp => scanPair bp.1 bp.2)

lemma detectFrom_cons (prevb : Option Block) (b : Block) (rest : List Block) :
    detectFrom prevb (b :: rest) =
      if b.hash ≠ expectedHash b then
        ⟨b.index, "Invalid block hash"⟩ :: detectFrom (some b) rest
      else
        match prevb with
        | some p =>
          if b.previousHash ≠ p.hash then
            ⟨b.index, "Invalid previous hash link"⟩ :: detectFrom (some b) rest
          else detectFrom (some b) rest
        | none => detectFrom (some b) rest := rfl

lemma detectFrom_eq_filterMap (chain : List Block) :
    ∀ prevb,
    detectFrom prevb chain = (chain.zip (prevb :: chain.map some)).filterMap (fun bp => scanPair bp.1 bp.2) := by
  induction chain with
  | nil => intro prevb; rfl
  | cons b rest ih =>
    intro prevb
    rw [List.map_cons, List.zip_cons_cons, List.filterMap_cons, detectFrom_cons, ← ih (some b)]
    dsimp only
    unfold scanPair
    by_cases h1 : b.hash ≠ expectedHash b
    · rw [if_pos h1, if_pos h1]
    · rw [if_neg h1, if_neg h1]
      cases prevb with
      | none => rfl
      | some p =>
        dsimp only
        by_cases h2 : b.previousHash ≠ p.hash
        · rw [if_pos h2, if_pos h2]
        · rw [if_neg h2, if_neg h2]

/-- C6.  `detectTampering` is the non-short-circuiting audit the spec
describes (first conjunct: it equals the spec-side report over every
block/predecessor pair), and on the concrete 3-block chain whose middle
block's payload was mutated from "locA" to "locB" without recomputing its
hash it reports exactly block 1 — the hash field of block 1 is unchanged,
so block 2's stored link still matches and neither block 0 nor block 2 is
reported. -/
theorem detectTampering_reports_bad_blocks :
    (∀ chain : List Block, detectTampering chain = tamperReportSpec chain) ∧
    detectTampering
      [⟨0, 10, "base", Digest.sentinel, Digest.digest 0 10 "base" Digest.sentinel⟩,
       ⟨1, 11, "locB", Digest.digest 0 10 "base" Digest.sentinel,
         Digest.digest 1 11 "locA" (Digest.digest 0 10 "base" Digest.sentinel)⟩,
       ⟨2, 12, "arrive", Digest.digest 1 11 "locA" (Digest.digest 0 10 "base" Digest.sentinel),
         Digest.digest 2 12 "arrive" (Digest.digest 1 11 "locA" (Digest.digest 0 10 "base" Digest.sentinel))⟩] =
      [⟨1, "Invalid block hash"⟩] := by
  constructor
  · intro chain
    exact detectFrom_eq_filterMap chain none
  · rfl



/-! ### Claim theorems: market engine -/

lemma jsRound_mono {q r : ℚ} (h : q ≤ r) : jsRound q ≤ jsRound r :=
  Int.floor_le_floor (by linarith)

/-- C2 counterexample.  The claim says a buy with `amount >= pool[outcome]`
is rejected with an insufficient-liquidity error and pools stay
non-negative; but `buyShares` performs no liquidity check at all: on a
fresh market (pools 1000/1000) a buy of 2000 YES shares is accepted at
cost 2000 and leaves the YES pool at -1000. -/
theorem buyShares_drives_pool_negative :
    ((newMarket "MKT" "q" "KIT" "d" "admin" "t").buyShares "u" Outcome.YES 2000).toOption.map
      (fun r => (r.1.cost, r.2.outcomesYES)) = some (2000, -1000) := by
  simp [newMarket, Market.buyShares, calculatePrice, Market.pool, Outcome.other, Market.setPool,
    rnd2, jsRound, dictGet, dictAdjust, posGet, posSet, Except.toOption]
  norm_num [Int.floor_eq_iff]

/-- C2 as amended: `buyShares` on an OPEN market accepts every amount —
there is no insufficient-liquidity check — decrementing the outcome pool
by the full amount, so whenever `amount >= pool[outcome]` the pool is
driven to zero or below instead of the trade being rejected.  (A sell only
ever increases the pool, so the sell path cannot drive a pool negative.) -/
theorem buyShares_no_liquidity_check :
    ∀ (m : Market) (u : String) (o : Outcome) (a : ℚ), m.status = .OPEN →
    ∃ tx m1, m.buyShares u o a = .ok (tx, m1) ∧ m1.pool o = m.pool o - a ∧
      (m.pool o ≤ a → m1.pool o ≤ 0) := by
  intro m u o a hst
  unfold Market.buyShares
  rw [if_neg (by simp [hst])]
  refine ⟨_, _, rfl, ?_, ?_⟩
  · cases o <;> simp [Market.pool, Market.setPool]
  · intro hle
    cases o <;> simp [Market.pool, Market.setPool] at hle ⊢ <;> linarith

/-- Witness for C2's amended theorem on a fresh market. -/
theorem buyShares_no_liquidity_check_witness :
    (newMarket "MKT" "q" "KIT" "d" "admin" "t").status = MarketStatus.OPEN ∧
    (∃ tx m1, (newMarket "MKT" "q" "KIT" "d" "admin" "t").buyShares "u" Outcome.YES 2000 = .ok (tx, m1) ∧
      m1.pool .YES = (newMarket "MKT" "q" "KIT" "d" "admin" "t").pool .YES - 2000 ∧
      ((newMarket "MKT" "q" "KIT" "d" "admin" "t").pool .YES ≤ 2000 → m1.pool .YES ≤ 0)) :=
  ⟨rfl, buyShares_no_liquidity_check (newMarket "MKT" "q" "KIT" "d" "admin" "t") "u" Outcome.YES 2000 rfl⟩

/-- C7.  First conjunct: every accepted buy on an OPEN market is priced by
`calculatePrice` — `amount * (pool_other / pool_current)` rounded to two
decimals, evaluated at the pre-trade pool snapshot — and adds exactly that
cost to `totalVolume`.  Second conjunct: the concrete scenario — buying
200 YES at pools 1000/1000 costs 200.00 and leaves the YES pool at 800. -/
theorem calculatePrice_formula_and_totalVolume :
    (∀ (m : Market) (u : String) (o : Outcome) (a : ℚ), m.status = .OPEN → 0 < m.pool o →
      ∃ tx m1, m.buyShares u o a = .ok (tx, m1) ∧
        tx.cost = rnd2 (a * (m.pool o.other / m.pool o)) ∧
        m1.totalVolume = m.totalVolume + tx.cost) ∧
    ((newMarket "MKT" "q" "KIT" "d" "admin" "t").buyShares "alice" Outcome.YES 200).toOption.map
      (fun r => (r.1.cost, r.2.outcomesYES)) = some (200, 800) := by
  constructor
  · intro m u o a hst hpool
    unfold Market.buyShares
    rw [if_neg (by simp [hst])]
    refine ⟨_, _, rfl, ?_, ?_⟩
    · rfl
    · cases o <;> simp [Market.setPool, calculatePrice, Market.pool, Outcome.other]
  · simp [newMarket, Market.buyShares, calculatePrice, Market.pool, Outcome.other, Market.setPool,
      rnd2, jsRound, dictGet, dictAdjust, posGet, posSet, Except.toOption]
    norm_num [Int.floor_eq_iff]

/-- Witness for C7's pricing conjunct on a fresh market. -/
theorem calculatePrice_formula_witness :
    (newMarket "MKT" "q" "KIT" "d" "admin" "t").status = MarketStatus.OPEN ∧
    (0 : ℚ) < (newMarket "MKT" "q" "KIT" "d" "admin" "t").pool .YES ∧
    (∃ tx m1, (newMarket "MKT" "q" "KIT" "d" "admin" "t").buyShares "bob" Outcome.YES 200 = .ok (tx, m1) ∧
      tx.cost = rnd2 (200 * ((newMarket "MKT" "q" "KIT" "d" "admin" "t").pool (Outcome.other .YES) /
        (newMarket "MKT" "q" "KIT" "d" "admin" "t").pool .YES)) ∧
      m1.totalVolume = (newMarket "MKT" "q" "KIT" "d" "admin" "t").totalVolume + tx.cost) :=
  ⟨rfl, by norm_num [newMarket, Market.pool],
   calculatePrice_formula_and_totalVolume.1 (newMarket "MKT" "q" "KIT" "d" "admin" "t") "bob"
     Outcome.YES 200 rfl (by norm_num [newMarket, Market.pool])⟩

/-- C8 counterexample.  The claim says every accepted YES buy strictly
increases `getProbabilities().YES`; but that probability is rounded to a
whole percent, so it can stall: on a fresh market the YES probability is
50, and after an accepted buy of 1 YES share (pool YES strictly decreased
to 999) it is still 50. -/
theorem buyShares_rounded_probability_can_stall :
    ((newMarket "MKT" "q" "KIT" "d" "admin" "t").getProbabilities).1 = 50 ∧
    ((newMarket "MKT" "q" "KIT" "d" "admin" "t").buyShares "u" Outcome.YES 1).toOption.map
      (fun r => ((r.2.getProbabilities).1, r.2.outcomesYES)) = some (50, 999) := by
  constructor
  · simp [newMarket, Market.getProbabilities, jsRound]
    norm_num [Int.floor_eq_iff]
  · simp [newMarket, Market.buyShares, calculatePrice, Market.pool, Outcome.other, Market.setPool,
      rnd2, jsRound, dictGet, dictAdjust, posGet, posSet, Except.toOption, Market.getProbabilities]
    norm_num [Int.floor_eq_iff]

/-- C8 as amended: an accepted YES buy of a positive amount below the YES
pool strictly decreases `pool.YES`, leaves `pool.NO` unchanged, strictly
increases the unrounded implied YES probability
`pool.NO / (pool.YES + pool.NO)`, and never decreases the rounded
`getProbabilities().YES` (which can stall on equal values due to
whole-percent rounding). -/
theorem buyShares_probability_monotonicity :
    ∀ (m : Market) (u : String) (a : ℚ),
    m.status = .OPEN → 0 < a → a < m.outcomesYES → 0 < m.outcomesNO →
    ∃ tx m1, m.buyShares u .YES a = .ok (tx, m1) ∧
      m1.outcomesYES < m.outcomesYES ∧ m1.outcomesNO = m.outcomesNO ∧
      m.outcomesNO / (m.outcomesYES + m.outcomesNO) <
        m1.outcomesNO / (m1.outcomesYES + m1.outcomesNO) ∧
      (m.getProbabilities).1 ≤ (m1.getProbabilities).1 := by
  intro m u a hst ha hay hno
  unfold Market.buyShares
  rw [if_neg (by simp [hst])]
  refine ⟨_, _, rfl, ?_, ?_, ?_, ?_⟩
  · simp [Market.pool, Market.setPool]
    linarith
  · simp [Market.pool, Market.setPool]
  · simp only [Market.pool, Market.setPool]
    exact div_lt_div_of_pos_left hno (by linarith) (by linarith)
  · simp only [Market.getProbabilities, Market.pool, Market.setPool]
    apply jsRound_mono
    have hraw : m.outcomesNO / (m.outcomesYES + m.outcomesNO) ≤
        m.outcomesNO / (m.outcomesYES - a + m.outcomesNO) :=
      le_of_lt (div_lt_div_of_pos_left hno (by linarith) (by linarith))
    nlinarith [hraw]

/-- Witness for C8's amended theorem: buying 500 YES on a fresh market. -/
theorem buyShares_probability_monotonicity_witness :
    (newMarket "MKT" "q" "KIT" "d" "admin" "t").status = MarketStatus.OPEN ∧
    (0 : ℚ) < 500 ∧
    (500 : ℚ) < (newMarket "MKT" "q" "KIT" "d" "admin" "t").outcomesYES ∧
    (0 : ℚ) < (newMarket "MKT" "q" "KIT" "d" "admin" "t").outcomesNO ∧
    (∃ tx m1, (newMarket "MKT" "q" "KIT" "d" "admin" "t").buyShares "u" .YES 500 = .ok (tx, m1) ∧
      m1.outcomesYES < (newMarket "MKT" "q" "KIT" "d" "admin" "t").outcomesYES ∧
      m1.outcomesNO = (newMarket "MKT" "q" "KIT" "d" "admin" "t").outcomesNO ∧
      (newMarket "MKT" "q" "KIT" "d" "admin" "t").outcomesNO /
        ((newMarket "MKT" "q" "KIT" "d" "admin" "t").outcomesYES +
         (newMarket "MKT" "q" "KIT" "d" "admin" "t").outcomesNO) <
        m1.outcomesNO / (m1.outcomesYES + m1.outcomesNO) ∧
      ((newMarket "MKT" "q" "KIT" "d" "admin" "t").getProbabilities).1 ≤ ((m1).getProbabilities).1) :=
  ⟨rfl, by norm_num, by norm_num [newMarket], by norm_num [newMarket],
   buyShares_probability_monotonicity (newMarket "MKT" "q" "KIT" "d" "admin" "t") "u" 500 rfl
     (by norm_num) (by norm_num [newMarket]) (by norm_num [newMarket])⟩

/-! ### Claim theorems: position ledger -/

lemma lookupBal_updateStats (sm : ShareManager) (u v : String) (f : UserStats → UserStats) :
    lookupBal (updateStats sm u f) v = lookupBal sm v := rfl

lemma lookupStats_updateBal (sm : ShareManager) (u v : String) (f : UserBalance → UserBalance) :
    lookupStats (updateBal sm u f) v = lookupStats sm v := rfl

lemma lookupBal_updateBal_self (sm : ShareManager) (u : String) (f : UserBalance → UserBalance) :
    lookupBal (updateBal sm u f) u = (lookupBal sm u).map f :=
  dictGet_adjust_self _ _ _

lemma lookupStats_updateStats_self (sm : ShareManager) (u : String) (f : UserStats → UserStats) :
    lookupStats (updateStats sm u f) u = (lookupStats sm u).map f :=
  dictGet_adjust_self _ _ _

lemma sellShares_error_of_insufficient (m : Market) (u : String) (o : Outcome) (a : ℚ)
    (h : dictGet m.positions u = none ∨ ∃ p, dictGet m.positions u = some p ∧ posGet p o < a) :
    ∃ e, m.sellShares u o a = .error e := by
  unfold Market.sellShares
  by_cases hst : m.status ≠ .OPEN
  · rw [if_pos hst]
    exact ⟨_, rfl⟩
  · rw [if_neg hst]
    rcases h with h | ⟨p, hp, hlt⟩
    · rw [h]
      exact ⟨_, rfl⟩
    · rw [hp]
      dsimp only
      rw [if_pos hlt]
      exact ⟨_, rfl⟩

lemma buyShares_open_eq (m : Market) (u : String) (o : Outcome) (a : ℚ) (hst : m.status = .OPEN) :
    m.buyShares u o a = .ok
      ({ marketID := m.marketID, userId := u, outcome := o, shares := a, cost := calculatePrice m o a },
       { m.setPool o (m.pool o - a) with
         totalVolume := (m.setPool o (m.pool o - a)).totalVolume + calculatePrice m o a,
         positions := dictAdjust
           (if (dictGet m.positions u).isNone then m.positions ++ [(u, ((0 : ℚ), (0 : ℚ)))] else m.positions)
           u (fun p => posSet p o (posGet p o + a)) }) := by
  unfold Market.buyShares
  rw [if_neg (by simp [hst])]

/-- C4 counterexample.  The claim says a buy whose cost exceeds the
participant's credit balance is rejected without mutating state; but
`ShareManager.buyShares` never checks the balance: alice, initialized with
100 credits, buys 200 YES shares costing 200 on a fresh market — the trade
is accepted and her balance is left at -100. -/
theorem shareManager_buy_ignores_credit_balance :
    ((ShareManager.initializeUser ⟨[], []⟩ "alice" 100).buyShares
        (newMarket "MKT" "q" "KIT" "d" "admin" "t") "alice" Outcome.YES 200).2.2 =
      .ok { marketID := "MKT", userId := "alice", outcome := .YES, shares := 200, cost := 200 } ∧
    (lookupBal (((ShareManager.initializeUser ⟨[], []⟩ "alice" 100).buyShares
        (newMarket "MKT" "q" "KIT" "d" "admin" "t") "alice" Outcome.YES 200).1) "alice").map
      (fun ub => ub.credits) = some (-100) := by
  constructor <;>
  · simp [ShareManager.initializeUser, ShareManager.buyShares, lookupBal, lookupStats,
      updateBal, updateStats, holdingsAdd, newMarket, Market.buyShares, calculatePrice,
      Market.pool, Outcome.other, Market.setPool, rnd2, jsRound, dictGet, dictAdjust,
      posGet, posSet, freshStats]
    norm_num [Int.floor_eq_iff]

/-- C4 as amended: a sell for which the market's recorded positions of the
participant in that outcome are insufficient is rejected (the market
throws before anything changes) with both the position ledger and the
market untouched; a buy, however, is never checked against the credit
balance — on an OPEN market it always succeeds at the `calculatePrice`
cost and debits that cost even when it exceeds the balance, which can
leave the credits negative. -/
theorem shareManager_sell_rejection_buy_unchecked :
    ∀ (sm : ShareManager) (m : Market) (u : String) (o : Outcome) (a : ℚ),
    ((dictGet m.positions u = none ∨ ∃ p, dictGet m.positions u = some p ∧ posGet p o < a) →
      ∃ e, sm.sellShares m u o a = (sm, m, .error e)) ∧
    (∀ ub, m.status = .OPEN → lookupBal sm u = some ub →
      (sm.buyShares m u o a).2.2 =
        .ok { marketID := m.marketID, userId := u, outcome := o, shares := a, cost := calculatePrice m o a } ∧
      (lookupBal (sm.buyShares m u o a).1 u).map (fun b => b.credits) =
        some (ub.credits - calculatePrice m o a)) := by
  intro sm m u o a
  constructor
  · intro h
    obtain ⟨e, he⟩ := sellShares_error_of_insufficient m u o a h
    unfold ShareManager.sellShares
    by_cases hnone : (lookupBal sm u).isNone
    · rw [if_pos hnone]
      exact ⟨_, rfl⟩
    · rw [if_neg hnone, he]
      exact ⟨e, rfl⟩
  · intro ub hst hub
    unfold ShareManager.buyShares
    rw [hub]
    rw [if_neg (show ¬ ((some ub).isNone = true) from by simp)]
    rw [buyShares_open_eq m u o a hst]
    dsimp only
    constructor
    · rfl
    · rw [lookupBal_updateStats, lookupBal_updateBal_self, hub]
      rfl

/-- Witness for C4's amended theorem: the sell-rejection conjunct on an
empty ledger and fresh market, plus the unchecked-buy conjunct for a user
holding 100 credits. -/
theorem shareManager_sell_rejection_witness :
    (∃ e, (⟨[], []⟩ : ShareManager).sellShares (newMarket "MKT" "q" "KIT" "d" "admin" "t")
      "bob" Outcome.YES 5 = (⟨[], []⟩, newMarket "MKT" "q" "KIT" "d" "admin" "t", .error e)) ∧
    (newMarket "MKT" "q" "KIT" "d" "admin" "t").status = MarketStatus.OPEN ∧
    lookupBal ⟨[("carol", { credits := 100, holdings := [] })], [("carol", freshStats)]⟩ "carol" =
      some { credits := 100, holdings := [] } ∧
    (lookupBal ((⟨[("carol", { credits := 100, holdings := [] })], [("carol", freshStats)]⟩ : ShareManager).buyShares
        (newMarket "MKT" "q" "KIT" "d" "admin" "t") "carol" Outcome.YES 200).1 "carol").map
      (fun b => b.credits) =
      some (({ credits := 100, holdings := [] } : UserBalance).credits -
        calculatePrice (newMarket "MKT" "q" "KIT" "d" "admin" "t") Outcome.YES 200) :=
  ⟨(shareManager_sell_rejection_buy_unchecked ⟨[], []⟩ (newMarket "MKT" "q" "KIT" "d" "admin" "t")
      "bob" Outcome.YES 5).1 (Or.inl rfl),
   rfl, rfl,
   ((shareManager_sell_rejection_buy_unchecked
      ⟨[("carol", { credits := 100, holdings := [] })], [("carol", freshStats)]⟩
      (newMarket "MKT" "q" "KIT" "d" "admin" "t") "carol" Outcome.YES 200).2
      { credits := 100, holdings := [] } rfl rfl).2⟩

lemma resolvePosition_noop_of_no_holdings (sm : ShareManager) (u : String) (m : Market) (ub : UserBalance)
    (hub : lookupBal sm u = some ub) (h : dictGet ub.holdings m.marketID = none) :
    sm.resolvePosition u m = sm := by
  unfold ShareManager.resolvePosition
  rw [hub]
  dsimp only
  rw [h]

/-- C9.  For a resolved market (`winningOutcome = some w`) and a
participant with a balance entry, a stats entry and a holdings entry for
that market, `resolvePosition` increments `totalPredictions` iff shares
were held on either side, increments `correctPredictions` iff winning
shares were held, clears the holdings entry for the market, and a second
call is a no-op. -/
theorem resolvePosition_settlement :
    ∀ (sm : ShareManager) (u : String) (m : Market) (w : Outcome) (ub : UserBalance) (hold : Pos) (st : UserStats),
    m.winningOutcome = some w →
    lookupBal sm u = some ub →
    dictGet ub.holdings m.marketID = some hold →
    lookupStats sm u = some st →
    (lookupStats (sm.resolvePosition u m) u).map (fun t => t.totalPredictions) =
      some (if 0 < posGet hold w ∨ 0 < posGet hold w.other then st.totalPredictions + 1
            else st.totalPredictions) ∧
    (lookupStats (sm.resolvePosition u m) u).map (fun t => t.correctPredictions) =
      some (if 0 < posGet hold w then st.correctPredictions + 1 else st.correctPredictions) ∧
    (lookupBal (sm.resolvePosition u m) u).map (fun b => dictGet b.holdings m.marketID) = some none ∧
    (sm.resolvePosition u m).resolvePosition u m = sm.resolvePosition u m := by
  intro sm u m w ub hold st hw hub hhold hst
  have hres : sm.resolvePosition u m =
      updateBal (updateStats sm u (fun t =>
        let t1 := if posGet hold w > 0 then { t with correctPredictions := t.correctPredictions + 1 } else t
        if posGet hold w > 0 ∨ posGet hold w.other > 0 then
          { t1 with totalPredictions := t1.totalPredictions + 1 } else t1)) u
        (fun b => { b with holdings := b.holdings.filter (fun p => p.1 != m.marketID) }) := by
    unfold ShareManager.resolvePosition
    rw [hub]
    dsimp only
    rw [hhold]
    dsimp only
    rw [hw]
    cases w <;> rfl
  have hub' : lookupBal (sm.resolvePosition u m) u =
      some { ub with holdings := ub.holdings.filter (fun p => p.1 != m.marketID) } := by
    rw [hres, lookupBal_updateBal_self, lookupBal_updateStats, hub]
    rfl
  refine ⟨?_, ?_, ?_, ?_⟩
  · rw [hres, lookupStats_updateBal, lookupStats_updateStats_self, hst]
    by_cases h1 : 0 < posGet hold w <;> by_cases h2 : 0 < posGet hold w.other <;>
      simp [h1, h2]
  · rw [hres, lookupStats_updateBal, lookupStats_updateStats_self, hst]
    by_cases h1 : 0 < posGet hold w <;> by_cases h2 : 0 < posGet hold w.other <;>
      simp [h1, h2]
  · rw [hub']
    simp [dictGet_filter_self]
  · exact resolvePosition_noop_of_no_holdings _ u m _ hub' (dictGet_filter_self _ _)

/-- Witness for C9: alice holds 200 YES shares in a market resolved YES;
settling her position clears the holdings entry and updates the stats. -/
theorem resolvePosition_settlement_witness :
    ({ newMarket "MKT" "q" "KIT" "d" "admin" "t" with
        status := MarketStatus.RESOLVED, winningOutcome := some .YES } : Market).winningOutcome =
      some Outcome.YES ∧
    (lookupBal ((⟨[("alice", { credits := 9800, holdings := [("MKT", ((200 : ℚ), (0 : ℚ)))] })],
        [("alice", freshStats)]⟩ : ShareManager).resolvePosition "alice"
        { newMarket "MKT" "q" "KIT" "d" "admin" "t" with
          status := MarketStatus.RESOLVED, winningOutcome := some .YES }) "alice").map
      (fun b => dictGet b.holdings
        ({ newMarket "MKT" "q" "KIT" "d" "admin" "t" with
           status := MarketStatus.RESOLVED, winningOutcome := some .YES } : Market).marketID) =
      some none :=
  ⟨rfl,
   (resolvePosition_settlement
     ⟨[("alice", { credits := 9800, holdings := [("MKT", ((200 : ℚ), (0 : ℚ)))] })], [("alice", freshStats)]⟩
     "alice"
     { newMarket "MKT" "q" "KIT" "d" "admin" "t" with
       status := MarketStatus.RESOLVED, winningOutcome := some .YES }
     Outcome.YES
     { credits := 9800, holdings := [("MKT", ((200 : ℚ), (0 : ℚ)))] }
     ((200 : ℚ), (0 : ℚ)) freshStats rfl rfl rfl rfl).2.2.1⟩

/-- C10.  `getBalance` on a participant never initialized before does not
fail: it implicitly initializes them with the default 10000 credits, empty
holdings and zeroed stats, returns exactly that view, and the returned
manager state now carries the new balance entry — so reading an unknown
participant's balance mutates the position ledger. -/
theorem getBalance_initializes_unknown_user :
    ∀ (sm : ShareManager) (u : String),
    lookupBal sm u = none → lookupStats sm u = none →
    (sm.getBalance u).2 = { credits := 10000, holdings := [], stats := some freshStats } ∧
    lookupBal (sm.getBalance u).1 u = some { credits := 10000, holdings := [] } := by
  intro sm u hb hs
  have hinit : sm.initializeUser u 10000 =
      ⟨sm.userBalances ++ [(u, { credits := 10000, holdings := [] })],
       sm.userStats ++ [(u, freshStats)]⟩ := by
    unfold ShareManager.initializeUser
    rw [hb]
    rw [if_neg (show ¬ ((none : Option UserBalance).isSome = true) from by simp)]
  have h1 : lookupBal
      ⟨sm.userBalances ++ [(u, { credits := 10000, holdings := [] })], sm.userStats ++ [(u, freshStats)]⟩ u =
      some { credits := 10000, holdings := [] } := by
    show dictGet (sm.userBalances ++ [(u, { credits := 10000, holdings := [] })]) u = _
    rw [dictGet_append_of_none _ hb, dictGet_cons_self]
  have h2 : lookupStats
      ⟨sm.userBalances ++ [(u, { credits := 10000, holdings := [] })], sm.userStats ++ [(u, freshStats)]⟩ u =
      some freshStats := by
    show dictGet (sm.userStats ++ [(u, freshStats)]) u = _
    rw [dictGet_append_of_none _ hs, dictGet_cons_self]
  unfold ShareManager.getBalance
  rw [hb]
  rw [if_pos (show (none : Option UserBalance).isNone = true from rfl), hinit]
  dsimp only
  rw [h1, h2]
  exact ⟨rfl, rfl⟩

/-- Witness for C10: the empty position ledger and a fresh participant. -/
theorem getBalance_initializes_witness :
    lookupBal ⟨[], []⟩ "alice" = none ∧
    ((⟨[], []⟩ : ShareManager).getBalance "alice").2 =
      { credits := 10000, holdings := [], stats := some freshStats } :=
  ⟨rfl, (getBalance_initializes_unknown_user ⟨[], []⟩ "alice" rfl rfl).1⟩

end ICRC
